import Mathlib

/-!
Verification development for the `args` configuration-language parser.

The definitions below are a shallow embedding of the Go sources
(`symbols.go`, `tokenizer.go`, `parser.go`, `param.go`, `operator.go`,
`config.go`, `valid.go`, conversion helpers).  Strings are modelled as
lists of runes (`List Char`), machine state is passed explicitly, and the
mutual recursion between the tokenizer and the lazy symbol table is made
total with an explicit fuel argument (the Go code terminates because the
cycle-detection set bounds the recursion depth; fuel only serves Lean's
termination checker and is chosen large enough in every concrete run).
-/

set_option maxHeartbeats 4000000

namespace Args

/-- A Go string, one entry per rune (the sources iterate inputs rune by rune). -/
abbrev GoStr := List Char

/-- Errors of the pipeline.  `cycle` mirrors the distinguished `cycleError`
type of symbols.go (the tokenizer detects it by a type assertion and
propagates it unwrapped); `msg` is an ordinary `fmt.Errorf` error;
`goPanic` marks executions on which the Go code panics (or, in this model,
runs out of fuel — never the case in the concrete runs below). -/
inductive GoErr where
  | cycle (sym : GoStr)
  | msg (s : GoStr)
  | goPanic (s : GoStr)
deriving DecidableEq

/-- The `Error()` string of a `GoErr` (`cycleError.Error` in symbols.go). -/
def GoErr.message : GoErr → GoStr
  | .cycle sym => "cyclical symbol definition detected: \"".data ++ sym ++ "\"".data
  | .msg s => s
  | .goPanic s => "panic: ".data ++ s

/-- Operator constants of config.go. -/
inductive Op where
  | opCond | opDump | opImport | opInclude | opMacro | opReset | opSkip
deriving DecidableEq

/-- config.go `Config`: the five special characters and the operator name
dictionary. -/
structure Config where
  symbolPrefix : Char
  openQuote : Char
  closeQuote : Char
  separator : Char
  escape : Char
  opDict : List (GoStr × Op)

/-- config.go `NewConfig`. -/
def defaultConfig : Config :=
  { symbolPrefix := '$', openQuote := '[', closeQuote := ']',
    separator := '=', escape := '\\',
    opDict :=
      [("macro".data, .opMacro), ("cond".data, .opCond), ("dump".data, .opDump),
       ("import".data, .opImport), ("include".data, .opInclude),
       ("reset".data, .opReset), ("--".data, .opSkip)] }

/-- valid.go `valid`: letters, digits, hyphen, underscore.  Go consults the
full Unicode letter/digit tables; this model uses the ASCII fragment, which
coincides with Go on every input appearing in the claims. -/
def valid (c : Char) : Bool :=
  c.isAlpha || c.isDigit || c == '-' || c == '_'

/-- Go `unicode.IsSpace`: the Unicode White_Space property, reproduced
exactly (09–0D, 20, 85, A0, 1680, 2000–200A, 2028, 2029, 202F, 205F, 3000). -/
def goIsSpace (c : Char) : Bool :=
  let n := c.toNat
  decide (n = 0x20) || decide (0x9 ≤ n ∧ n ≤ 0xD) || decide (n = 0x85) ||
  decide (n = 0xA0) || decide (n = 0x1680) || decide (0x2000 ≤ n ∧ n ≤ 0x200A) ||
  decide (n = 0x2028) || decide (n = 0x2029) || decide (n = 0x202F) ||
  decide (n = 0x205F) || decide (n = 0x3000)

/-- symbols.go `symval`. -/
structure Symval where
  resolved : Bool
  s : GoStr
deriving DecidableEq

/-- symbols.go `symtab`: the table and the cycle-detection set.  Go maps are
used only through lookup, insert-if-absent, and delete, so association
lists model them faithfully. -/
structure Symtab where
  table : List (GoStr × Symval)
  cycle : List GoStr
deriving DecidableEq

/-- Association-list lookup (Go map read). -/
def lookupA {α : Type} (k : GoStr) : List (GoStr × α) → Option α
  | [] => none
  | (k2, v) :: rest => if k2 = k then some v else lookupA k rest

/-- Association-list removal (Go map `delete`). -/
def removeA {α : Type} (k : GoStr) (l : List (GoStr × α)) : List (GoStr × α) :=
  l.filter (fun p => decide (p.1 ≠ k))

/-- Association-list in-place update of one entry. -/
def updateA {α : Type} (k : GoStr) (f : α → α) : List (GoStr × α) → List (GoStr × α)
  | [] => []
  | (k2, v) :: rest => if k2 = k then (k2, f v) :: rest else (k2, v) :: updateA k f rest

/-- symbols.go `symtab.put`: s is a symbol definition iff it has at least two
runes, starts with the prefix, and its second rune is not the prefix; the
entry is inserted (unresolved) only when not already present ("first
wins").  Note that the remainder of the name is not validated. -/
def symPut (cfg : Config) (st : Symtab) (s value : GoStr) : Bool × Symtab :=
  match s with
  | c0 :: c1 :: rest =>
    if c0 = cfg.symbolPrefix ∧ c1 ≠ cfg.symbolPrefix then
      let sym := c1 :: rest
      match lookupA sym st.table with
      | some _ => (true, st)
      | none => (true, { st with table := st.table ++ [(sym, { resolved := false, s := value })] })
    else (false, st)
  | _ => (false, st)

/-- tokenizer.go scan states.  `tsInit` of the source is the empty stack and
is therefore not a constructor here. -/
inductive ScanState where
  | tsString | tsBracket | tsSymbol | tsPrefix | tsEscape | tsEnd | tsError
deriving DecidableEq

/-- tokenizer.go `tokenizer`: the reader is split into the unread suffix and
the consumed prefix (most recent rune first, for error contexts). -/
structure Tokenizer where
  rest : GoStr
  consumedRev : GoStr
  stringBuf : GoStr
  symBuf : GoStr
  resolved : Bool
  stack : List ScanState
deriving DecidableEq

/-- tokenizer.go `Reset`. -/
def tkReset (input : GoStr) : Tokenizer :=
  { rest := input, consumedRev := [], stringBuf := [], symBuf := [],
    resolved := true, stack := [] }

/-- tokenizer.go `symval()`. -/
def Tokenizer.symval (tk : Tokenizer) : Symval :=
  { resolved := tk.resolved, s := tk.stringBuf }

def errorContextLength : Nat := 15

/-- tokenizer.go `ErrorContext`: up to the last 15 positions of consumed
input, with a `...` prefix when truncated.  (The source counts UTF-8 bytes;
this model counts runes, which coincides on the ASCII inputs of the
claims.) -/
def Tokenizer.errorContext (tk : Tokenizer) : GoStr :=
  if errorContextLength < tk.consumedRev.length then
    "...".data ++ (tk.consumedRev.take errorContextLength).reverse
  else tk.consumedRev.reverse

/-- tokenizer.go `stack.pushIfEmpty`. -/
def pushIfEmpty (stk : List ScanState) (s : ScanState) : List ScanState :=
  match stk with
  | [] => [s]
  | _ => stk

/-- The tokens of tokenizer.go (`tokenEnd`, `tokenEqual`, `tokenString`,
`tokenError`); `tokenNone` is `ScanOut.more` below. -/
inductive Token where
  | tEnd
  | tEqual
  | tString (v : Symval)
  | tErr (e : GoErr)
deriving DecidableEq

/-- Result of one `scan()` step: either a token or "continue scanning". -/
inductive ScanOut where
  | more
  | tok (t : Token)
deriving DecidableEq

/-- tokenizer.go `genericError`: `at "<context>": <msg>`, leaving `tsError`
on the stack. -/
def mkGenericError (st : Symtab) (tk : Tokenizer) (m : GoStr) : ScanOut × Tokenizer × Symtab :=
  (.tok (.tErr (.msg ("at \"".data ++ tk.errorContext ++ "\": ".data ++ m))),
   { tk with stack := .tsError :: tk.stack }, st)

/-- tokenizer.go `symbolCharacterError`. -/
def mkSymbolCharacterError (st : Symtab) (tk : Tokenizer) (c : Char) : ScanOut × Tokenizer × Symtab :=
  (.tok (.tErr (.msg ("at \"".data ++ tk.errorContext ++
      "\": character invalid in symbol: \x27".data ++ [c] ++ "\x27".data))),
   { tk with stack := .tsError :: tk.stack }, st)

/-- tokenizer.go `invalidCharacterError` (context is followed by the
replacement character U+FFFD, as in the source format `at "%s%c"`). -/
def mkInvalidCharacterError (st : Symtab) (tk : Tokenizer) (m : GoStr) : ScanOut × Tokenizer × Symtab :=
  (.tok (.tErr (.msg ("at \"".data ++ tk.errorContext ++ ['�'] ++ "\": ".data ++ m))),
   { tk with stack := .tsError :: tk.stack }, st)

/-- The `case r == 0` branch of tokenizer.go `scan` (end of input, or an
actual NUL rune which Go treats identically).  Tokenizer fields are in the
order rest, consumedRev, stringBuf, symBuf, resolved, stack. -/
def scanZero : Symtab → Tokenizer → ScanOut × Tokenizer × Symtab
  | st, ⟨rest0, cons, buf, sym, res, stk⟩ =>
    match stk with
    | [] => (.tok .tEnd, ⟨rest0, cons, buf, sym, res, []⟩, st)
    | .tsString :: s => (.tok (.tString ⟨res, buf⟩), ⟨rest0, cons, buf, sym, res, s⟩, st)
    | .tsBracket :: _ => mkGenericError st ⟨rest0, cons, buf, sym, res, stk⟩ "premature end of input".data
    | .tsSymbol :: _ => mkGenericError st ⟨rest0, cons, buf, sym, res, stk⟩ "premature end of input".data
    | .tsPrefix :: _ => mkGenericError st ⟨rest0, cons, buf, sym, res, stk⟩ "premature end of input".data
    | .tsEscape :: _ => mkGenericError st ⟨rest0, cons, buf, sym, res, stk⟩ "premature end of input".data
    | .tsEnd :: s => (.tok .tEnd, ⟨rest0, cons, buf, sym, res, s⟩, st)
    | .tsError :: _ => (.tok (.tErr (.goPanic "bug in scan()".data)), ⟨rest0, cons, buf, sym, res, stk⟩, st)

mutual

/-- symbols.go `symtab.get`: cycle guard, lazy resolution of the stored text
through a fresh tokenizer over `openQuote ++ text ++ closeQuote` (using the
same table as resolver), store-back of the `resolved` flag (the source
stores back only the flag, not the resolved text — see claim C1), and the
deferred removal from the cycle set on every return path. -/
def symGet : Nat → Config → Symtab → GoStr → (Except GoErr (Option Symval)) × Symtab
  | 0, _, st, _ => (.error (.goPanic "out of fuel".data), st)
  | fuel + 1, cfg, ⟨table, cycle⟩, symbol =>
    if symbol ∈ cycle then (.error (.cycle symbol), ⟨table, cycle⟩)
    else
      match lookupA symbol table with
      | none =>
          (.ok none, ⟨table, (symbol :: cycle).filter (fun x => decide (x ≠ symbol))⟩)
      | some sv =>
        if sv.resolved then
          (.ok (some sv), ⟨table, (symbol :: cycle).filter (fun x => decide (x ≠ symbol))⟩)
        else
          let quoted := cfg.openQuote :: sv.s ++ [cfg.closeQuote]
          match tkNext fuel cfg ⟨table, symbol :: cycle⟩ (tkReset quoted) with
          | (.tErr e, _, ⟨table2, cycle2⟩) =>
              (.error e, ⟨table2, cycle2.filter (fun x => decide (x ≠ symbol))⟩)
          | (.tString sv1, _, ⟨table2, cycle2⟩) =>
              (.ok (some sv1),
               ⟨updateA symbol (fun v => ⟨sv1.resolved, v.s⟩) table2,
                cycle2.filter (fun x => decide (x ≠ symbol))⟩)
          | (_, _, ⟨table2, cycle2⟩) =>
              (.error (.msg ("recursive scan failed: ".data ++ quoted)),
               ⟨table2, cycle2.filter (fun x => decide (x ≠ symbol))⟩)

/-- The close-quote/`tsSymbol` arm of tokenizer.go `scan`: pop `tsSymbol`
(and push `tsString` if the stack emptied), take and clear the symbol
buffer — all already done by the caller, which passes the resulting
tokenizer — then resolve the name through the resolver, toggle the
`resolved` flag, propagate cycle errors unwrapped (the type assertion in
the source), wrap other errors, and splice either the value or the literal
reference back into the string buffer. -/
def resolveSymbol : Nat → Config → Symtab → Tokenizer → GoStr → ScanOut × Tokenizer × Symtab
  | 0, _, st, tk2, _ => (.tok (.tErr (.goPanic "out of fuel".data)), tk2, st)
  | fuel + 1, cfg, st, ⟨rest0, cons, buf, symb, res, stk⟩, symbol =>
    match symGet fuel cfg st symbol with
    | (result, st2) =>
      let res2 : Bool := match result with
        | .ok (some sv) => if sv.resolved then res else false
        | _ => false
      match result with
      | .error e =>
        match e with
        | .cycle s => (.tok (.tErr (.cycle s)), ⟨rest0, cons, buf, symb, res2, .tsError :: stk⟩, st2)
        | _ =>
          mkGenericError st2 ⟨rest0, cons, buf, symb, res2, .tsError :: stk⟩
            ("error resolving \"".data ++ symbol ++ "\": ".data ++ e.message)
      | .ok none =>
        (.more, ⟨rest0, cons, buf ++ [cfg.symbolPrefix, cfg.openQuote] ++ symbol ++ [cfg.closeQuote], symb, res2, stk⟩, st2)
      | .ok (some sv) =>
        (.more, ⟨rest0, cons, buf ++ sv.s, symb, res2, stk⟩, st2)

/-- tokenizer.go `scan`: read one rune and dispatch on its class and the top
of the state stack.  Tokenizer fields are in the order rest, consumedRev,
stringBuf, symBuf, resolved, stack. -/
def tkScan : Nat → Config → Symtab → Tokenizer → ScanOut × Tokenizer × Symtab
  | 0, _, st, tk => (.tok (.tErr (.goPanic "out of fuel".data)), tk, st)
  | fuel + 1, cfg, st, ⟨rest0, cons, buf, sym, res, stk⟩ =>
    match rest0 with
    | [] => scanZero st ⟨[], cons, buf, sym, res, stk⟩
    | c :: rest =>
      if c = '�' then
        mkInvalidCharacterError st ⟨rest0, cons, buf, sym, res, stk⟩ "invalid character".data
      else if c = '﻿' then
        mkInvalidCharacterError st ⟨rest0, cons, buf, sym, res, stk⟩ "byte order mark character not supported".data
      else if c = '\x00' then
        -- an actual NUL rune reads as r == 0 in Go and is handled like end of input
        scanZero st ⟨rest, c :: cons, buf, sym, res, stk⟩
      else if goIsSpace c then
        match stk with
        | [] => (.more, ⟨rest, c :: cons, buf, sym, res, []⟩, st)
        | .tsString :: s => (.tok (.tString ⟨res, buf⟩), ⟨rest, c :: cons, buf, sym, res, s⟩, st)
        | .tsBracket :: _ => (.more, ⟨rest, c :: cons, buf ++ [c], sym, res, stk⟩, st)
        | .tsSymbol :: _ => mkSymbolCharacterError st ⟨rest, c :: cons, buf, sym, res, stk⟩ c
        | .tsPrefix :: _ => mkSymbolCharacterError st ⟨rest, c :: cons, buf, sym, res, stk⟩ c
        | .tsEscape :: s => (.more, ⟨rest, c :: cons, buf ++ [c], sym, res, pushIfEmpty s .tsString⟩, st)
        | .tsEnd :: _ => (.tok (.tErr (.goPanic "bug in scan()".data)), ⟨rest, c :: cons, buf, sym, res, stk⟩, st)
        | .tsError :: _ => (.tok (.tErr (.goPanic "bug in scan()".data)), ⟨rest, c :: cons, buf, sym, res, stk⟩, st)
      else if c = cfg.separator then
        match stk with
        | [] => (.tok .tEqual, ⟨rest, c :: cons, buf, sym, res, []⟩, st)
        | .tsString :: s =>
          -- the separator is unread: the reader position stays before it
          (.tok (.tString ⟨res, buf⟩), ⟨rest0, cons, buf, sym, res, s⟩, st)
        | .tsBracket :: _ => (.more, ⟨rest, c :: cons, buf ++ [c], sym, res, stk⟩, st)
        | .tsSymbol :: _ => mkSymbolCharacterError st ⟨rest, c :: cons, buf, sym, res, stk⟩ c
        | .tsPrefix :: _ => mkSymbolCharacterError st ⟨rest, c :: cons, buf, sym, res, stk⟩ c
        | .tsEscape :: s => (.more, ⟨rest, c :: cons, buf ++ [c], sym, res, pushIfEmpty s .tsString⟩, st)
        | .tsEnd :: _ => (.tok (.tErr (.goPanic "bug in scan()".data)), ⟨rest, c :: cons, buf, sym, res, stk⟩, st)
        | .tsError :: _ => (.tok (.tErr (.goPanic "bug in scan()".data)), ⟨rest, c :: cons, buf, sym, res, stk⟩, st)
      else if c = cfg.escape then
        match stk with
        | [] => (.more, ⟨rest, c :: cons, buf, sym, res, .tsEscape :: stk⟩, st)
        | .tsString :: _ => (.more, ⟨rest, c :: cons, buf, sym, res, .tsEscape :: stk⟩, st)
        | .tsBracket :: _ => (.more, ⟨rest, c :: cons, buf, sym, res, .tsEscape :: stk⟩, st)
        | .tsSymbol :: _ => mkSymbolCharacterError st ⟨rest, c :: cons, buf, sym, res, stk⟩ c
        | .tsPrefix :: _ => mkSymbolCharacterError st ⟨rest, c :: cons, buf, sym, res, stk⟩ c
        | .tsEscape :: s => (.more, ⟨rest, c :: cons, buf ++ [c], sym, res, pushIfEmpty s .tsString⟩, st)
        | .tsEnd :: _ => (.tok (.tErr (.goPanic "bug in scan()".data)), ⟨rest, c :: cons, buf, sym, res, stk⟩, st)
        | .tsError :: _ => (.tok (.tErr (.goPanic "bug in scan()".data)), ⟨rest, c :: cons, buf, sym, res, stk⟩, st)
      else if c = cfg.openQuote then
        match stk with
        | [] => (.more, ⟨rest, c :: cons, buf, sym, res, .tsBracket :: stk⟩, st)
        | .tsString :: _ => (.more, ⟨rest, c :: cons, buf, sym, res, .tsBracket :: stk⟩, st)
        | .tsBracket :: _ => (.more, ⟨rest, c :: cons, buf ++ [c], sym, res, .tsBracket :: stk⟩, st)
        | .tsSymbol :: _ => mkSymbolCharacterError st ⟨rest, c :: cons, buf, sym, res, stk⟩ c
        | .tsPrefix :: s => (.more, ⟨rest, c :: cons, buf, sym, res, .tsSymbol :: s⟩, st)
        | .tsEscape :: s => (.more, ⟨rest, c :: cons, buf ++ [c], sym, res, pushIfEmpty s .tsString⟩, st)
        | .tsEnd :: _ => (.tok (.tErr (.goPanic "bug in scan()".data)), ⟨rest, c :: cons, buf, sym, res, stk⟩, st)
        | .tsError :: _ => (.tok (.tErr (.goPanic "bug in scan()".data)), ⟨rest, c :: cons, buf, sym, res, stk⟩, st)
      else if c = cfg.closeQuote then
        match stk with
        | [] => mkGenericError st ⟨rest, c :: cons, buf, sym, res, stk⟩ ("premature \x27".data ++ [c] ++ "\x27".data)
        | .tsString :: _ => mkGenericError st ⟨rest, c :: cons, buf, sym, res, stk⟩ ("premature \x27".data ++ [c] ++ "\x27".data)
        | .tsBracket :: s =>
          match s with
          | .tsBracket :: _ => (.more, ⟨rest, c :: cons, buf ++ [c], sym, res, s⟩, st)
          | _ => (.more, ⟨rest, c :: cons, buf, sym, res, pushIfEmpty s .tsString⟩, st)
        | .tsSymbol :: s =>
          resolveSymbol fuel cfg st ⟨rest, c :: cons, buf, [], res, pushIfEmpty s .tsString⟩ sym
        | .tsPrefix :: _ => mkSymbolCharacterError st ⟨rest, c :: cons, buf, sym, res, stk⟩ c
        | .tsEscape :: s => (.more, ⟨rest, c :: cons, buf ++ [c], sym, res, pushIfEmpty s .tsString⟩, st)
        | .tsEnd :: _ => (.tok (.tErr (.goPanic "bug in scan()".data)), ⟨rest, c :: cons, buf, sym, res, stk⟩, st)
        | .tsError :: _ => (.tok (.tErr (.goPanic "bug in scan()".data)), ⟨rest, c :: cons, buf, sym, res, stk⟩, st)
      else if c = cfg.symbolPrefix then
        match stk with
        | [] => (.more, ⟨rest, c :: cons, buf, sym, res, .tsPrefix :: stk⟩, st)
        | .tsString :: _ => (.more, ⟨rest, c :: cons, buf, sym, res, .tsPrefix :: stk⟩, st)
        | .tsBracket :: _ => (.more, ⟨rest, c :: cons, buf, sym, res, .tsPrefix :: stk⟩, st)
        | .tsSymbol :: _ => mkSymbolCharacterError st ⟨rest, c :: cons, buf, sym, res, stk⟩ c
        | .tsPrefix :: _ => mkSymbolCharacterError st ⟨rest, c :: cons, buf, sym, res, stk⟩ c
        | .tsEscape :: s => (.more, ⟨rest, c :: cons, buf ++ [c], sym, res, pushIfEmpty s .tsString⟩, st)
        | .tsEnd :: _ => (.tok (.tErr (.goPanic "bug in scan()".data)), ⟨rest, c :: cons, buf, sym, res, stk⟩, st)
        | .tsError :: _ => (.tok (.tErr (.goPanic "bug in scan()".data)), ⟨rest, c :: cons, buf, sym, res, stk⟩, st)
      else
        match stk with
        | [] => (.more, ⟨rest, c :: cons, buf ++ [c], sym, res, [.tsString]⟩, st)
        | .tsString :: _ => (.more, ⟨rest, c :: cons, buf ++ [c], sym, res, stk⟩, st)
        | .tsBracket :: _ => (.more, ⟨rest, c :: cons, buf ++ [c], sym, res, stk⟩, st)
        | .tsSymbol :: _ =>
          if valid c then (.more, ⟨rest, c :: cons, buf, sym ++ [c], res, stk⟩, st)
          else mkSymbolCharacterError st ⟨rest, c :: cons, buf, sym, res, stk⟩ c
        | .tsPrefix :: s =>
          (.more, ⟨rest, c :: cons, buf ++ [cfg.symbolPrefix, c], sym, res, pushIfEmpty s .tsString⟩, st)
        | .tsEscape :: s =>
          (.more, ⟨rest, c :: cons, buf ++ [cfg.escape, c], sym, res, pushIfEmpty s .tsString⟩, st)
        | .tsEnd :: _ => (.tok (.tErr (.goPanic "bug in scan()".data)), ⟨rest, c :: cons, buf, sym, res, stk⟩, st)
        | .tsError :: _ => (.tok (.tErr (.goPanic "bug in scan()".data)), ⟨rest, c :: cons, buf, sym, res, stk⟩, st)

/-- The `for` loop of tokenizer.go `Next`: run `scan` until it produces a
token. -/
def tkRun : Nat → Config → Symtab → Tokenizer → Token × Tokenizer × Symtab
  | 0, _, st, tk => (.tErr (.goPanic "out of fuel".data), tk, st)
  | fuel + 1, cfg, st, tk =>
    match tkScan fuel cfg st tk with
    | (.more, tk2, st2) => tkRun fuel cfg st2 tk2
    | (.tok t, tk2, st2) => (t, tk2, st2)

/-- tokenizer.go `Next`: panics on a non-empty stack, resets the string
buffer and the resolved flag, then scans until a token appears. -/
def tkNext : Nat → Config → Symtab → Tokenizer → Token × Tokenizer × Symtab
  | 0, _, st, tk => (.tErr (.goPanic "out of fuel".data), tk, st)
  | fuel + 1, cfg, st, ⟨rest0, cons, _, sym, _, stk⟩ =>
    match stk with
    | _ :: _ => (.tErr (.goPanic "Next() called on non-empty stack".data), ⟨rest0, cons, [], sym, true, stk⟩, st)
    | [] => tkRun fuel cfg st ⟨rest0, cons, [], sym, true, []⟩

end

/-- parser.go `plural`. -/
def plural (n : Nat) : GoStr :=
  if n = 1 then [] else "s".data

/-- parser.go `decorate`: `Parse error on <name>: <err>` with the anonymous
parameter spelled out. -/
def decorate (e : GoErr) (name : GoStr) : GoErr :=
  .msg ("Parse error on ".data ++
    (if name = [] then "anonymous parameter".data else name) ++ ": ".data ++ e.message)

/-- Go `strconv.ParseBool`: accepts 1/t/T/TRUE/true/True and
0/f/F/FALSE/false/False. -/
def goParseBool (s : GoStr) : Except GoErr Bool :=
  if s = "1".data ∨ s = "t".data ∨ s = "T".data ∨ s = "TRUE".data ∨ s = "true".data ∨ s = "True".data then
    .ok true
  else if s = "0".data ∨ s = "f".data ∨ s = "F".data ∨ s = "FALSE".data ∨ s = "false".data ∨ s = "False".data then
    .ok false
  else
    .error (.msg ("strconv.ParseBool: parsing \"".data ++ s ++ "\": invalid syntax".data))

/-- The target kinds needed by the claims: a scalar string, a scalar bool, a
fixed-length string array, and a string slice with a capacity (0 meaning
unbounded).  Map targets, numeric targets and bool sequences appear in no
claim and are not modelled. -/
inductive Target where
  | str (v : GoStr)
  | boolean (v : Bool)
  | strArray (len : Nat) (v : List GoStr)
  | strSlice (capv : Nat) (v : List GoStr)
deriving DecidableEq

/-- param.go `Param`: canonical name, value limit, values-seen counter,
verbatim flag, and the target.  Custom scanners (`Param.Scan`) and
splitters (`Param.Split`) appear in no claim and are not modelled: `p.scan`
is nil (the built-in converter is used) and `p.splitter` is nil (`p.split`
yields the single value). -/
structure ParamRec where
  name : GoStr
  limit : Nat
  count : Nat
  verbatim : Bool
  target : Target
deriving DecidableEq

/-- typescan.go / the `convert` helper for the modelled scalar targets:
string targets always succeed, bool targets go through strconv.ParseBool. -/
def convertScalar (value : GoStr) (t : Target) : Except GoErr Target :=
  match t with
  | .str _ => .ok (.str value)
  | .boolean _ =>
    match goParseBool value with
    | .ok b => .ok (.boolean b)
    | .error e => .error e
  | _ => .error (.goPanic "convertScalar on a sequence target".data)

/-- Assign values to consecutive elements starting at index i
(`assignIndexed` in a loop; string conversion cannot fail). -/
def setRange (v : List GoStr) (i : Nat) : List GoStr → List GoStr
  | [] => v
  | x :: xs => setRange (v.set i x) (i + 1) xs

/-- param.go `Param.parseArrayValues`: reject when the new total exceeds the
limit, otherwise assign element-wise and set the counter to the total. -/
def parseArrayValues (p : ParamRec) (values : List GoStr) : Option GoErr × ParamRec :=
  match p with
  | ⟨name, limit, count, verbatim, target⟩ =>
    let total := values.length + count
    if limit < total then
      (some (.msg ("too many values specified, expected ".data ++ (Nat.repr limit).data)), p)
    else
      match target with
      | .strArray len v =>
        (none, ⟨name, limit, total, verbatim, .strArray len (setRange v count values)⟩)
      | _ => (some (.goPanic "parseArrayValues on a non-array target".data), p)

/-- param.go `Param.parseSliceValues`: with limit 0 any number of values is
okay, otherwise reject when the total exceeds the limit; grow the slice if
needed (preserving existing elements), assign element-wise, and set the
counter to the total. -/
def parseSliceValues (p : ParamRec) (values : List GoStr) : Option GoErr × ParamRec :=
  match p with
  | ⟨name, limit, count, verbatim, target⟩ =>
    let total := values.length + count
    let errOpt : Option GoErr :=
      if limit = 0 then none
      else if limit < total then
        some (.msg ((Nat.repr total).data ++ " value".data ++ plural total ++
          " specified, at most ".data ++ (Nat.repr limit).data ++ " expected".data))
      else none
    match errOpt with
    | some e => (some e, p)
    | none =>
      match target with
      | .strSlice capv v =>
        let v1 := if v.length < total then v ++ List.replicate (total - v.length) [] else v
        (none, ⟨name, limit, total, verbatim, .strSlice capv (setRange v1 count values)⟩)
      | _ => (some (.goPanic "parseSliceValues on a non-slice target".data), p)

/-- param.go `Param.parseValues`: dispatch on the target kind; for scalars
the last value wins and the counter is incremented even on a conversion
error; errors are decorated with the parameter name.  (Map targets are not
modelled — no claim concerns `parseMapValues`.) -/
def parseValues (p : ParamRec) (values : List GoStr) : Option GoErr × ParamRec :=
  let r :=
    match p.target with
    | .strArray _ _ => parseArrayValues p values
    | .strSlice _ _ => parseSliceValues p values
    | _ =>
      match values.getLast? with
      | none => (some (.goPanic "index out of range".data), p)
      | some v =>
        match p with
        | ⟨name, limit, count, verbatim, target⟩ =>
          match convertScalar v target with
          | .ok t2 => (none, ⟨name, limit, count + 1, verbatim, t2⟩)
          | .error e => (some e, ⟨name, limit, count + 1, verbatim, target⟩)
  match r with
  | (some e, p2) => (some (decorate e p.name), p2)
  | (none, p2) => (none, p2)

/-- parser.go `Parser`: the parameter table (canonical names and synonyms
mapping to a shared record, modelled as indices into `pdata`), the symbol
table, and the include-cycle set.  The definition-order sequence `seq` is
implicit in the order of `pdata`. -/
structure PState where
  params : List (GoStr × Nat)
  pdata : List ParamRec
  symbols : Symtab
  includeCycle : List GoStr
deriving DecidableEq

/-- Look a name up in the parameter table (`a.params[name]`), returning the
index of the shared record and the record. -/
def lookupParam (a : PState) (n : GoStr) : Option (Nat × ParamRec) :=
  match lookupA n a.params with
  | some i =>
    match a.pdata[i]? with
    | some p => some (i, p)
    | none => none
  | none => none

/-- args.go `reflTakesBool`: the target takes a bool if it is a bool scalar
(bool arrays and slices, which the source also accepts, are not modelled). -/
def reflTakesBool : Target → Bool
  | .boolean _ => true
  | _ => false

/-- parser.go `Parser.isStandaloneBoolParameter`: the symval must be
resolved and its text must be a defined name — canonical or synonym — of a
parameter whose target takes bool. -/
def isStandaloneBoolParameter (a : PState) (value : Symval) : Bool :=
  value.resolved &&
    match lookupParam a value.s with
    | some (_, p) => reflTakesBool p.target
    | none => false

/-- parser.go `Parser.setValue`: require a resolved name; try a symbol-table
put first; otherwise assign to the named parameter (rejecting unresolved
values for non-verbatim parameters), or fail.  (The anonymous-map fallback
concerns map targets, which are not modelled; with no map parameter defined
`getAnonymousMapParameter` returns nil and the source falls through to the
"parameter not defined" error modelled here.) -/
def setValue (cfg : Config) (a : PState) (name value : Symval) : Option GoErr × PState :=
  match a with
  | ⟨prms, pdata, symbols, incl⟩ =>
    if ¬name.resolved then
      (some (.msg ("cannot resolve name in \"".data ++ name.s ++ [' ', cfg.separator, ' '] ++ value.s ++ "\"".data)),
       ⟨prms, pdata, symbols, incl⟩)
    else
      match symPut cfg symbols name.s value.s with
      | (true, st2) => (none, ⟨prms, pdata, st2, incl⟩)
      | (false, st2) =>
        let a2 : PState := ⟨prms, pdata, st2, incl⟩
        match lookupParam a2 name.s with
        | some (idx, p) =>
          if ¬value.resolved ∧ ¬p.verbatim then
            if name.s = [] then
              (some (.msg ("cannot resolve standalone value \"".data ++ value.s ++ "\"".data)), a2)
            else
              (some (.msg ("cannot resolve value in \"".data ++ name.s ++ [' ', cfg.separator, ' '] ++ value.s ++ "\"".data)), a2)
          else
            match parseValues p [value.s] with
            | (err, p2) => (err, ⟨prms, pdata.set idx p2, st2, incl⟩)
        | none =>
          (some (.msg ("parameter not defined: \"".data ++ name.s ++ "\"".data)), a2)

/-- One parameter's check in parser.go `Parser.verify`: arrays need the
exact count, mandatory scalars need at least one value.  (The branches that
re-scan default values only act when a custom scanner is set, which is not
modelled.) -/
def verifyOne (p : ParamRec) : Option GoErr :=
  match p.target with
  | .strSlice _ _ => none
  | .strArray _ _ =>
    if p.count ≠ p.limit then
      some (decorate (.msg ((Nat.repr p.count).data ++ " value".data ++ plural p.count ++
        " specified but exactly ".data ++ (Nat.repr p.limit).data ++ " expected".data)) p.name)
    else none
  | _ =>
    if p.count < 1 then
      if p.limit ≠ 0 then some (decorate (.msg "mandatory parameter not set".data) p.name)
      else none
    else none

/-- parser.go `Parser.verify`: first failing canonical parameter.  (Go
iterates its map in unspecified order; this model iterates in definition
order — the claims involve at most one parameter that can fail.) -/
def verify (a : PState) : Option GoErr :=
  (a.pdata.filterMap verifyOne).head?

/-- parser.go `nameValParser`: the tokenizer plus one buffered name. -/
structure NVP where
  t : Tokenizer
  name : Option Symval
deriving DecidableEq

/-- parser.go `newNameValParser`. -/
def newNVP (input : GoStr) : NVP := ⟨tkReset input, none⟩

/-- The second half of parser.go `nameValParser.next`, entered with a name
in hand: a following End yields a standalone value, a String is saved as
the next name, an Equal demands a value token. -/
def nvpAfterName (fuel : Nat) (cfg : Config) (st : Symtab) (tk : Tokenizer) (name : Symval) :
    (Option Symval × Option Symval × Option GoErr) × NVP × Symtab :=
  match tkNext fuel cfg st tk with
  | (.tErr e, tk2, st2) => ((none, none, some (decorate e name.s)), ⟨tk2, none⟩, st2)
  | (.tEnd, tk2, st2) => ((none, some name, none), ⟨tk2, none⟩, st2)
  | (.tString s, tk2, st2) => ((none, some name, none), ⟨tk2, some s⟩, st2)
  | (.tEqual, tk2, st2) =>
    match tkNext fuel cfg st2 tk2 with
    | (.tErr e, tk3, st3) => ((none, none, some (decorate e name.s)), ⟨tk3, none⟩, st3)
    | (.tEnd, tk3, st3) =>
      ((none, none, some (.msg ("at \"".data ++ tk3.errorContext ++ "\": premature end of input".data))), ⟨tk3, none⟩, st3)
    | (.tEqual, tk3, st3) =>
      ((none, none, some (.msg ("at \"".data ++ tk3.errorContext ++ "\": \"".data ++ [cfg.separator] ++ "\" unexpected".data))), ⟨tk3, none⟩, st3)
    | (.tString v, tk3, st3) => ((some name, some v, none), ⟨tk3, none⟩, st3)

/-- parser.go `nameValParser.next`: produce the next (name, value) pair;
(none, none, none) signals the end of the input. -/
def nvpNext (fuel : Nat) (cfg : Config) (st : Symtab) (nvp : NVP) :
    (Option Symval × Option Symval × Option GoErr) × NVP × Symtab :=
  match nvp with
  | ⟨tk, buffered⟩ =>
    match buffered with
    | some s => nvpAfterName fuel cfg st tk s
    | none =>
      match tkNext fuel cfg st tk with
      | (.tErr e, tk2, st2) => ((none, none, some e), ⟨tk2, none⟩, st2)
      | (.tEnd, tk2, st2) => ((none, none, none), ⟨tk2, none⟩, st2)
      | (.tEqual, tk2, st2) =>
        ((none, none, some (.msg ("at \"".data ++ tk2.errorContext ++ "\": \"".data ++ [cfg.separator] ++ "\" unexpected".data))), ⟨tk2, none⟩, st2)
      | (.tString s, tk2, st2) => nvpAfterName fuel cfg st2 tk2 s

/-- operator.go `Parser.operator`: look the name up in the operator
dictionary. -/
def operatorOf (cfg : Config) (name : GoStr) : Option Op :=
  lookupA name cfg.opDict

/-- operator.go `symbol`: strip the symbol prefix when the string has at
least two runes and starts with it. -/
def symbolFn (cfg : Config) (s : GoStr) : GoStr × Bool :=
  match s with
  | c0 :: c1 :: rest => if c0 = cfg.symbolPrefix then (c1 :: rest, true) else (s, false)
  | _ => (s, false)

/-- The external services consumed by operators: the file system (read by
`include`) and the process environment (read by `import`). -/
structure World where
  fs : GoStr → Option (List Nat)
  env : GoStr → Option GoStr

/-- strings.Join with a blank (`ParseStrings`). -/
def joinSpace : List GoStr → GoStr
  | [] => []
  | [x] => x
  | x :: y :: rest => x ++ ' ' :: joinSpace (y :: rest)

/-- `%v` of a Go string slice: the elements joined by blanks in brackets. -/
def goShowList (l : List GoStr) : GoStr :=
  '[' :: joinSpace l ++ [']']

/-- The string value of a named parameter of a (sub-)parser. -/
def getStrTarget (a : PState) (n : GoStr) : GoStr :=
  match lookupParam a n with
  | some (_, p) =>
    match p.target with
    | .str v => v
    | _ => []
  | none => []

/-- The string-slice value of a named parameter of a (sub-)parser. -/
def getSliceTarget (a : PState) (n : GoStr) : List GoStr :=
  match lookupParam a n with
  | some (_, p) =>
    match p.target with
    | .strSlice _ v => v
    | _ => []
  | none => []

/-- The loop of operator.go `resetOperator.handle`: every value must carry
the symbol prefix; matching symbols are removed from the parent's table. -/
def resetLoop (cfg : Config) (a : PState) : List GoStr → Option GoErr × PState
  | [] => (none, a)
  | s :: rest =>
    match symbolFn cfg s with
    | (sym, true) =>
      match a with
      | ⟨prms, pdata, ⟨table, cycle⟩, incl⟩ =>
        resetLoop cfg ⟨prms, pdata, ⟨removeA sym table, cycle⟩, incl⟩ rest
    | (_, false) =>
      (some (.msg ("reset: \"".data ++ s ++ "\": symbol prefix missing (".data ++ [cfg.symbolPrefix] ++ ")".data)), a)

/-- The loop of operator.go `importOperator.handle`: every value must carry
the symbol prefix; present environment variables are `put` (first wins). -/
def importLoop (cfg : Config) (w : World) (a : PState) : List GoStr → Option GoErr × PState
  | [] => (none, a)
  | s :: rest =>
    match symbolFn cfg s with
    | (k, true) =>
      match w.env k with
      | some v =>
        match a with
        | ⟨prms, pdata, symbols, incl⟩ =>
          importLoop cfg w ⟨prms, pdata, (symPut cfg symbols s v).2, incl⟩ rest
      | none => importLoop cfg w a rest
    | (_, false) =>
      (some (.msg ("import: \"".data ++ s ++ "\": symbol prefix missing (".data ++ [cfg.symbolPrefix] ++ ")".data)), a)

/-- The collection loop of operator.go `macroOperator.handle`: every value
must carry the symbol prefix and be present in the table; the stored
(possibly unresolved) texts are collected in order. -/
def macroCollect (cfg : Config) (a : PState) : List GoStr → Except GoErr (List GoStr)
  | [] => .ok []
  | s :: rest =>
    match symbolFn cfg s with
    | (sym, true) =>
      match lookupA sym a.symbols.table with
      | some v =>
        match macroCollect cfg a rest with
        | .ok code => .ok (v.s :: code)
        | .error e => .error e
      | none => .error (.msg ("macro: symbol \"".data ++ s ++ "\" undefined".data))
    | (_, false) =>
      .error (.msg ("macro: \"".data ++ s ++ "\": symbol prefix missing (".data ++ [cfg.symbolPrefix] ++ ")".data))

/-- parser.go `CustomParser` / `SubParser`: a fresh parser state (the
configuration is shared; tables start empty). -/
def emptyPState : PState := ⟨[], [], ⟨[], []⟩, []⟩

/-- The ephemeral sub-parser of `condOperator.handle`:
`Def("if", ...)` verbatim, `Def("then", ...)` verbatim,
`Def("else", ...)` optional verbatim — all scalar strings. -/
def condLocal : PState :=
  ⟨[("if".data, 0), ("then".data, 1), ("else".data, 2)],
   [⟨"if".data, 1, 0, true, .str []⟩,
    ⟨"then".data, 1, 0, true, .str []⟩,
    ⟨"else".data, 0, 0, true, .str []⟩],
   ⟨[], []⟩, []⟩

/-- The ephemeral sub-parser of `resetOperator.handle`,
`importOperator.handle` and `macroOperator.handle`: `Def("", &symbols)`
verbatim, a string slice of capacity 0. -/
def namesLocal : PState :=
  ⟨[([], 0)], [⟨[], 0, 0, true, .strSlice 0 []⟩], ⟨[], []⟩, []⟩

/-- The ephemeral sub-parser of `dumpOperator.handle`: anonymous verbatim
string slice plus an optional verbatim `comment`. -/
def dumpLocal : PState :=
  ⟨[([], 0), ("comment".data, 1)],
   [⟨[], 0, 0, true, .strSlice 0 []⟩,
    ⟨"comment".data, 0, 0, true, .str []⟩],
   ⟨[], []⟩, []⟩

/-- The ephemeral sub-parser of `includeOperator.handle`: anonymous
mandatory scalar string `filename`, optional verbatim `keys`, optional
`extractor`. -/
def includeLocal : PState :=
  ⟨[([], 0), ("keys".data, 1), ("extractor".data, 2)],
   [⟨[], 1, 0, false, .str []⟩,
    ⟨"keys".data, 0, 0, true, .str []⟩,
    ⟨"extractor".data, 0, 0, false, .str []⟩],
   ⟨[], []⟩, []⟩

/-- filepath.Abs, an external service; modelled as the identity on paths
(no claim depends on path canonicalization). -/
def absPath (s : GoStr) : GoStr := s

/-- operator.go `includeOperator.handle`, basic mode, byte-order-mark
handling, modelling the Go source line by line with its evaluation order:

    if data[0] == 0xef && data[1] == 0xbb || data[2] == 0xbf {
        data = data[3:]
    }

`&&` binds tighter than `||` and both short-circuit; each index access
panics when out of range (modelled as `none`), and `data[3:]` panics when
the length is below 3. -/
def includeStrip (data : List Nat) : Option (List Nat) :=
  match data[0]? with
  | none => none
  | some b0 =>
    let conj : Option Bool :=
      if b0 = 0xef then
        match data[1]? with
        | none => none
        | some b1 => some (b1 = 0xbb)
      else some false
    match conj with
    | none => none
    | some c1 =>
      let cond : Option Bool :=
        if c1 then some true
        else
          match data[2]? with
          | none => none
          | some b2 => some (b2 = 0xbf)
      match cond with
      | none => none
      | some b =>
        if b then
          if data.length < 3 then none else some (data.drop 3)
        else some data

def utf8Cont (b : Nat) : Bool := decide (0x80 ≤ b ∧ b ≤ 0xBF)

/-- Accepted ranges for the first continuation byte of a three-byte UTF-8
sequence (Go utf8.DecodeRune: no overlong forms, no surrogates). -/
def utf8Accept2 (b b1 : Nat) : Bool :=
  if b = 0xE0 then decide (0xA0 ≤ b1 ∧ b1 ≤ 0xBF)
  else if b = 0xED then decide (0x80 ≤ b1 ∧ b1 ≤ 0x9F)
  else utf8Cont b1

/-- Accepted ranges for the first continuation byte of a four-byte UTF-8
sequence. -/
def utf8Accept3 (b b1 : Nat) : Bool :=
  if b = 0xF0 then decide (0x90 ≤ b1 ∧ b1 ≤ 0xBF)
  else if b = 0xF4 then decide (0x80 ≤ b1 ∧ b1 ≤ 0x8F)
  else utf8Cont b1

/-- Go UTF-8 decoding as performed by bytes.Reader.ReadRune: invalid
sequences decode to U+FFFD consuming one byte. -/
def utf8DecodeAux : Nat → List Nat → GoStr
  | 0, _ => []
  | _, [] => []
  | fuel + 1, b :: rest =>
    if b < 0x80 then Char.ofNat b :: utf8DecodeAux fuel rest
    else if 0xC2 ≤ b ∧ b ≤ 0xDF then
      match rest with
      | b1 :: r1 =>
        if utf8Cont b1 then Char.ofNat ((b % 32) * 64 + b1 % 64) :: utf8DecodeAux fuel r1
        else '�' :: utf8DecodeAux fuel rest
      | [] => '�' :: utf8DecodeAux fuel rest
    else if 0xE0 ≤ b ∧ b ≤ 0xEF then
      match rest with
      | b1 :: b2 :: r2 =>
        if utf8Accept2 b b1 ∧ utf8Cont b2 = true then
          Char.ofNat ((b % 16) * 4096 + (b1 % 64) * 64 + b2 % 64) :: utf8DecodeAux fuel r2
        else '�' :: utf8DecodeAux fuel rest
      | _ => '�' :: utf8DecodeAux fuel rest
    else if 0xF0 ≤ b ∧ b ≤ 0xF4 then
      match rest with
      | b1 :: b2 :: b3 :: r3 =>
        if utf8Accept3 b b1 ∧ utf8Cont b2 = true ∧ utf8Cont b3 = true then
          Char.ofNat ((b % 8) * 262144 + (b1 % 64) * 4096 + (b2 % 64) * 64 + b3 % 64) :: utf8DecodeAux fuel r3
        else '�' :: utf8DecodeAux fuel rest
      | _ => '�' :: utf8DecodeAux fuel rest
    else '�' :: utf8DecodeAux fuel rest

def utf8Decode (bs : List Nat) : GoStr := utf8DecodeAux bs.length bs

mutual

/-- The loop of parser.go `Parser.parse`: pull (name, value) pairs,
promote standalone names of bool parameters, route standalone values to the
anonymous parameter, dispatch operators, and otherwise assign through
`setValue`; the first error aborts. -/
def parseLoop : Nat → Config → World → PState → NVP → Option GoErr × PState
  | 0, _, _, a, _ => (some (.goPanic "out of fuel".data), a)
  | fuel + 1, cfg, w, a, nvp =>
    match a with
    | ⟨prms, pdata, symbols, incl⟩ =>
      match nvpNext fuel cfg symbols nvp with
      | ((nameO, valueO, errO), nvp2, st2) =>
        let a2 : PState := ⟨prms, pdata, st2, incl⟩
        match errO with
        | some e => (some e, a2)
        | none =>
          match nameO, valueO with
          | none, none => (none, a2)
          | _, none => (some (.goPanic "nameValParser invariant".data), a2)
          | nameO, some value0 =>
            let pairRes : Except GoErr (Symval × Symval) :=
              match nameO with
              | some n => .ok (n, value0)
              | none =>
                if isStandaloneBoolParameter a2 value0 then
                  .ok (value0, ⟨true, "true".data⟩)
                else if (lookupA [] prms).isSome then
                  .ok (⟨true, []⟩, value0)
                else
                  .error (.msg ("unexpected standalone value: \"".data ++ value0.s ++ "\"".data))
            match pairRes with
            | .error e => (some e, a2)
            | .ok (nm, v) =>
              match operatorOf cfg nm.s with
              | some op =>
                match handleOp fuel cfg w a2 op v.s with
                | (some e, a3) => (some e, a3)
                | (none, a3) => parseLoop fuel cfg w a3 nvp2
              | none =>
                match setValue cfg a2 nm v with
                | (some e, a3) => (some e, a3)
                | (none, a3) => parseLoop fuel cfg w a3 nvp2

/-- parser.go `Parser.ParseBytes`: parse, then run the verification pass. -/
def parseBytesM : Nat → Config → World → PState → GoStr → Option GoErr × PState
  | 0, _, _, a, _ => (some (.goPanic "out of fuel".data), a)
  | fuel + 1, cfg, w, a, b =>
    match parseLoop fuel cfg w a (newNVP b) with
    | (some e, a2) => (some e, a2)
    | (none, a2) => (verify a2, a2)

/-- operator.go `Parser.operator` dispatch to the handlers. -/
def handleOp : Nat → Config → World → PState → Op → GoStr → Option GoErr × PState
  | 0, _, _, a, _, _ => (some (.goPanic "out of fuel".data), a)
  | fuel + 1, cfg, w, a, op, value =>
    match op with
    | .opCond => handleCond fuel cfg w a value
    | .opDump => handleDump fuel cfg w a value
    | .opImport => handleImport fuel cfg w a value
    | .opInclude => handleInclude fuel cfg w a value
    | .opMacro => handleMacro fuel cfg w a value
    | .opReset => handleReset fuel cfg w a value
    | .opSkip => (none, a)

/-- operator.go `condOperator.handle`: parse the value with an ephemeral
sub-parser (errors propagate), evaluate `if` as a symbol or as a parameter,
then parse `then` or a non-empty `else` on the parent. -/
def handleCond : Nat → Config → World → PState → GoStr → Option GoErr × PState
  | 0, _, _, a, _ => (some (.goPanic "out of fuel".data), a)
  | fuel + 1, cfg, w, a, value =>
    match parseBytesM fuel cfg w condLocal value with
    | (some e, _) => (some e, a)
    | (none, local2) =>
      let condIf := getStrTarget local2 "if".data
      let condThen := getStrTarget local2 "then".data
      let condElse := getStrTarget local2 "else".data
      match symbolFn cfg condIf with
      | (ifVal, true) =>
        let c := (lookupA ifVal a.symbols.table).isSome
        if c then parseBytesM fuel cfg w a condThen
        else if condElse ≠ [] then parseBytesM fuel cfg w a condElse
        else (none, a)
      | (ifVal, false) =>
        match lookupParam a ifVal with
        | none => (some (.msg ("cond/if: parameter \"".data ++ ifVal ++ "\" not defined".data)), a)
        | some (_, p) =>
          if 0 < p.count then parseBytesM fuel cfg w a condThen
          else if condElse ≠ [] then parseBytesM fuel cfg w a condElse
          else (none, a)

/-- operator.go `dumpOperator.handle`: the sub-parser's result is discarded
by the source (`local.Parse(value)` with no error check); the printing to
standard error is not modelled; the handler always returns nil. -/
def handleDump : Nat → Config → World → PState → GoStr → Option GoErr × PState
  | 0, _, _, a, _ => (some (.goPanic "out of fuel".data), a)
  | fuel + 1, cfg, w, a, value =>
    match parseBytesM fuel cfg w dumpLocal value with
    | _ => (none, a)

/-- operator.go `importOperator.handle`: the sub-parser's error is
discarded by the source; then the import loop runs on whatever the
sub-parser collected. -/
def handleImport : Nat → Config → World → PState → GoStr → Option GoErr × PState
  | 0, _, _, a, _ => (some (.goPanic "out of fuel".data), a)
  | fuel + 1, cfg, w, a, value =>
    match parseBytesM fuel cfg w namesLocal value with
    | (_, local2) => importLoop cfg w a (getSliceTarget local2 [])

/-- operator.go `includeOperator.handle`: the sub-parser's error is
discarded by the source; include-cycle check on the canonical path; in
basic mode (no keys) an extractor is rejected, the file is read, the BOM
check of the source runs (see `includeStrip`), and the content is parsed
recursively.  Key-selection mode concerns no claim and is not modelled. -/
def handleInclude : Nat → Config → World → PState → GoStr → Option GoErr × PState
  | 0, _, _, a, _ => (some (.goPanic "out of fuel".data), a)
  | fuel + 1, cfg, w, a, value =>
    match parseBytesM fuel cfg w includeLocal value with
    | (_, local2) =>
      let filename := getStrTarget local2 []
      let keys := getStrTarget local2 "keys".data
      let extractor := getStrTarget local2 "extractor".data
      let path := absPath filename
      if path ∈ a.includeCycle then
        (some (.msg ("cyclical include dependency with file \"".data ++ filename ++ "\"".data)), a)
      else
        match a with
        | ⟨prms, pdata, symbols, incl⟩ =>
          let a1 : PState := ⟨prms, pdata, symbols, path :: incl⟩
          if keys = [] then
            if extractor ≠ [] then
              (some (.msg "include: specify extractor only with keys parameter".data),
               ⟨prms, pdata, symbols, (path :: incl).filter (fun x => decide (x ≠ path))⟩)
            else
              match w.fs path with
              | none =>
                (some (.msg ("include: open ".data ++ path ++ ": no such file or directory".data)),
                 ⟨prms, pdata, symbols, (path :: incl).filter (fun x => decide (x ≠ path))⟩)
              | some data =>
                match includeStrip data with
                | none =>
                  (some (.goPanic "runtime error: index out of range".data),
                   ⟨prms, pdata, symbols, (path :: incl).filter (fun x => decide (x ≠ path))⟩)
                | some data2 =>
                  match parseBytesM fuel cfg w a1 (utf8Decode data2) with
                  | (e, ⟨prms2, pdata2, symbols2, incl2⟩) =>
                    (e, ⟨prms2, pdata2, symbols2, incl2.filter (fun x => decide (x ≠ path))⟩)
          else
            (some (.goPanic "include key-selection mode not modelled".data),
             ⟨prms, pdata, symbols, (path :: incl).filter (fun x => decide (x ≠ path))⟩)

/-- operator.go `macroOperator.handle`: the sub-parser's error is discarded
by the source; collected symbols are read from the table without resolving
them and their texts are parsed on the parent via `ParseStrings`; a parse
failure is wrapped. -/
def handleMacro : Nat → Config → World → PState → GoStr → Option GoErr × PState
  | 0, _, _, a, _ => (some (.goPanic "out of fuel".data), a)
  | fuel + 1, cfg, w, a, value =>
    match parseBytesM fuel cfg w namesLocal value with
    | (_, local2) =>
      let symbols := getSliceTarget local2 []
      match macroCollect cfg a symbols with
      | .error e => (some e, a)
      | .ok code =>
        match parseBytesM fuel cfg w a (joinSpace code) with
        | (some e, a2) =>
          (some (.msg ("macro: parsing of ".data ++ goShowList code ++ " failed ".data ++ e.message)), a2)
        | (none, a2) => (none, a2)

/-- operator.go `resetOperator.handle`: the sub-parser's error is discarded
by the source; then the reset loop runs on whatever was collected. -/
def handleReset : Nat → Config → World → PState → GoStr → Option GoErr × PState
  | 0, _, _, a, _ => (some (.goPanic "out of fuel".data), a)
  | fuel + 1, cfg, w, a, value =>
    match parseBytesM fuel cfg w namesLocal value with
    | (_, local2) => resetLoop cfg a (getSliceTarget local2 [])

end

/-- A world with no files and no environment variables. -/
def emptyWorld : World := ⟨fun _ => none, fun _ => none⟩

/-! Helper lemmas. -/

theorem filterNeCons (a : GoStr) (l : List GoStr) (h : a ∉ l) :
    (a :: l).filter (fun x => decide (x ≠ a)) = l := by
  have h1 : (a :: l).filter (fun x => decide (x ≠ a)) = l.filter (fun x => decide (x ≠ a)) := by
    simp [List.filter_cons]
  rw [h1, List.filter_eq_self]
  intro x hx
  simp only [decide_eq_true_eq]
  intro he
  exact h (he ▸ hx)

theorem mkGenericError_st (st : Symtab) (tk : Tokenizer) (m : GoStr) :
    (mkGenericError st tk m).2.2 = st := rfl

theorem mkSymbolCharacterError_st (st : Symtab) (tk : Tokenizer) (c : Char) :
    (mkSymbolCharacterError st tk c).2.2 = st := rfl

theorem mkInvalidCharacterError_st (st : Symtab) (tk : Tokenizer) (m : GoStr) :
    (mkInvalidCharacterError st tk m).2.2 = st := rfl

theorem scanZero_st (st : Symtab) (tk : Tokenizer) : (scanZero st tk).2.2 = st := by
  obtain ⟨r, co, b, sy, re, stk⟩ := tk
  rcases stk with _ | ⟨h, s⟩
  · rfl
  · cases h <;> rfl

/-- Mutual cycle-set preservation: every function of the tokenizer/symbol
table group leaves the cycle-detection set exactly as it found it. -/
theorem cycleAll : ∀ fuel : Nat,
    (∀ cfg st sym, ((symGet fuel cfg st sym).2).cycle = st.cycle) ∧
    (∀ cfg st tk symbol, ((resolveSymbol fuel cfg st tk symbol).2.2).cycle = st.cycle) ∧
    (∀ cfg st tk, ((tkScan fuel cfg st tk).2.2).cycle = st.cycle) ∧
    (∀ cfg st tk, ((tkRun fuel cfg st tk).2.2).cycle = st.cycle) ∧
    (∀ cfg st tk, ((tkNext fuel cfg st tk).2.2).cycle = st.cycle) := by
  intro fuel
  induction fuel with
  | zero =>
    exact ⟨fun _ _ _ => rfl, fun _ _ _ _ => rfl, fun _ _ _ => rfl,
           fun _ _ _ => rfl, fun _ _ _ => rfl⟩
  | succ fuel ih =>
    obtain ⟨ihGet, ihRes, ihScan, ihRun, ihNext⟩ := ih
    have hGet : ∀ cfg st sym, ((symGet (fuel + 1) cfg st sym).2).cycle = st.cycle := by
      intro cfg st sym
      obtain ⟨table, cycle⟩ := st
      by_cases hmem : sym ∈ cycle
      · simp [symGet, hmem]
      · simp only [symGet, if_neg hmem]
        split
        · simpa using filterNeCons sym cycle hmem
        · rename_i sv hlook
          split
          · simpa using filterNeCons sym cycle hmem
          · have h2 := ihNext cfg ⟨table, sym :: cycle⟩
              (tkReset (cfg.openQuote :: sv.s ++ [cfg.closeQuote]))
            split
            all_goals
              rename_i heq
              rw [heq] at h2
              simp only at h2
              simp only
              rw [h2]
              exact filterNeCons sym cycle hmem
    have hRes : ∀ cfg st tk symbol, ((resolveSymbol (fuel + 1) cfg st tk symbol).2.2).cycle = st.cycle := by
      intro cfg st tk symbol
      obtain ⟨r, co, b, sy, re, stk⟩ := tk
      have h2 := ihGet cfg st symbol
      rcases hsg : symGet fuel cfg st symbol with ⟨result, st2⟩
      rw [hsg] at h2
      simp only at h2
      simp only [resolveSymbol, hsg]
      rcases result with e | osv
      · rcases e with s | m | m
        · simpa using h2
        · simpa [mkGenericError] using h2
        · simpa [mkGenericError] using h2
      · rcases osv with _ | sv
        · simpa using h2
        · simpa using h2
    have hScan : ∀ cfg st tk, ((tkScan (fuel + 1) cfg st tk).2.2).cycle = st.cycle := by
      intro cfg st tk
      obtain ⟨r, co, b, sy, re, stk⟩ := tk
      cases r with
      | nil => exact congrArg Symtab.cycle (scanZero_st st _)
      | cons c rest =>
        rw [tkScan.eq_def]
        dsimp only
        by_cases h1 : c = '\uFFFD'
        · rw [if_pos h1]; rfl
        · rw [if_neg h1]
          by_cases h2 : c = '\uFEFF'
          · rw [if_pos h2]; rfl
          · rw [if_neg h2]
            by_cases h3 : c = '\x00'
            · rw [if_pos h3]
              exact congrArg Symtab.cycle (scanZero_st _ _)
            · rw [if_neg h3]
              by_cases h4 : goIsSpace c = true
              · rw [if_pos h4]
                rcases stk with _ | ⟨s0, stk2⟩
                · rfl
                · cases s0 <;> rfl
              · rw [if_neg h4]
                by_cases h5 : c = cfg.separator
                · rw [if_pos h5]
                  rcases stk with _ | ⟨s0, stk2⟩
                  · rfl
                  · cases s0 <;> rfl
                · rw [if_neg h5]
                  by_cases h6 : c = cfg.escape
                  · rw [if_pos h6]
                    rcases stk with _ | ⟨s0, stk2⟩
                    · rfl
                    · cases s0 <;> rfl
                  · rw [if_neg h6]
                    by_cases h7 : c = cfg.openQuote
                    · rw [if_pos h7]
                      rcases stk with _ | ⟨s0, stk2⟩
                      · rfl
                      · cases s0 <;> rfl
                    · rw [if_neg h7]
                      by_cases h8 : c = cfg.closeQuote
                      · rw [if_pos h8]
                        rcases stk with _ | ⟨s0, stk2⟩
                        · rfl
                        · cases s0
                          · rfl
                          · rcases stk2 with _ | ⟨s1, stk3⟩
                            · rfl
                            · cases s1 <;> rfl
                          · exact ihRes _ _ _ _
                          · rfl
                          · rfl
                          · rfl
                          · rfl
                      · rw [if_neg h8]
                        by_cases h9 : c = cfg.symbolPrefix
                        · rw [if_pos h9]
                          rcases stk with _ | ⟨s0, stk2⟩
                          · rfl
                          · cases s0 <;> rfl
                        · rw [if_neg h9]
                          rcases stk with _ | ⟨s0, stk2⟩
                          · rfl
                          · cases s0
                            · rfl
                            · rfl
                            · by_cases hv : valid c = true
                              · rw [if_pos hv]
                              · rw [if_neg hv]; rfl
                            · rfl
                            · rfl
                            · rfl
                            · rfl
    have hRun : ∀ cfg st tk, ((tkRun (fuel + 1) cfg st tk).2.2).cycle = st.cycle := by
      intro cfg st tk
      have h2 := ihScan cfg st tk
      rcases hsc : tkScan fuel cfg st tk with ⟨out, tk2, st2⟩
      rw [hsc] at h2
      simp only at h2
      simp only [tkRun, hsc]
      rcases out with _ | t
      · simp only
        rw [ihRun cfg st2 tk2, h2]
      · simpa using h2
    have hNext : ∀ cfg st tk, ((tkNext (fuel + 1) cfg st tk).2.2).cycle = st.cycle := by
      intro cfg st tk
      obtain ⟨r, co, b, sy, re, stk⟩ := tk
      cases stk with
      | cons h t => rfl
      | nil => exact ihRun cfg st _
    exact ⟨hGet, hRes, hScan, hRun, hNext⟩

/-! Quoted-group round trip (claim C7): the scanner inside brackets. -/

/-- Characters that are not special in the default configuration and not
one of the three runes the scanner rejects or treats as end of input. -/
def plainChar (c : Char) : Prop :=
  c ≠ '$' ∧ c ≠ '[' ∧ c ≠ ']' ∧ c ≠ '=' ∧ c ≠ '\\' ∧ c ≠ '\x00' ∧ c ≠ '\uFFFD' ∧ c ≠ '\uFEFF'

instance (c : Char) : Decidable (plainChar c) := by
  unfold plainChar; infer_instance

/-- Texts with balanced brackets whose other characters are plain. -/
inductive Balanced : GoStr → Prop
  | nil : Balanced []
  | ch (c : Char) (t : GoStr) : plainChar c → Balanced t → Balanced (c :: t)
  | brk (u t : GoStr) : Balanced u → Balanced t → Balanced ('[' :: u ++ ']' :: t)

theorem tkRun_more {fuel : Nat} {cfg : Config} {st st2 : Symtab} {tk tk2 : Tokenizer}
    (h : tkScan fuel cfg st tk = (.more, tk2, st2)) :
    tkRun (fuel + 1) cfg st tk = tkRun fuel cfg st2 tk2 := by
  rw [tkRun.eq_def]; dsimp only; rw [h]

theorem tkRun_tok {fuel : Nat} {cfg : Config} {st st2 : Symtab} {tk tk2 : Tokenizer} {t : Token}
    (h : tkScan fuel cfg st tk = (.tok t, tk2, st2)) :
    tkRun (fuel + 1) cfg st tk = (t, tk2, st2) := by
  rw [tkRun.eq_def]; dsimp only; rw [h]

/-- Inside brackets a plain character is buffered verbatim. -/
theorem tkScan_bracket_plain (fuel : Nat) (st : Symtab) (c : Char) (hc : plainChar c)
    (rest cons buf sym : GoStr) (res : Bool) (stk : List ScanState) :
    tkScan (fuel + 1) defaultConfig st ⟨c :: rest, cons, buf, sym, res, .tsBracket :: stk⟩ =
      (.more, ⟨rest, c :: cons, buf ++ [c], sym, res, .tsBracket :: stk⟩, st) := by
  obtain ⟨h1, h2, h3, h4, h5, h6, h7, h8⟩ := hc
  rw [tkScan.eq_def]
  dsimp only
  rw [if_neg h7, if_neg h8, if_neg h6]
  by_cases hsp : goIsSpace c = true
  · rw [if_pos hsp]
  · rw [if_neg hsp]
    rw [if_neg (show ¬(c = defaultConfig.separator) from h4)]
    rw [if_neg (show ¬(c = defaultConfig.escape) from h5)]
    rw [if_neg (show ¬(c = defaultConfig.openQuote) from h2)]
    rw [if_neg (show ¬(c = defaultConfig.closeQuote) from h3)]
    rw [if_neg (show ¬(c = defaultConfig.symbolPrefix) from h1)]

/-- Consuming a balanced text inside brackets buffers it verbatim and
returns to the same stack. -/
theorem tkRun_bracket {t : GoStr} (hb : Balanced t) :
    ∀ (f : Nat) (st : Symtab) (rest cons buf sym : GoStr) (res : Bool) (stk : List ScanState),
      tkRun (t.length + (f + 1)) defaultConfig st ⟨t ++ rest, cons, buf, sym, res, .tsBracket :: stk⟩ =
      tkRun (f + 1) defaultConfig st ⟨rest, t.reverse ++ cons, buf ++ t, sym, res, .tsBracket :: stk⟩ := by
  induction hb with
  | nil =>
    intro f st rest cons buf sym res stk
    simp
  | ch c t hc hbt ih =>
    intro f st rest cons buf sym res stk
    rw [List.cons_append]
    have hlen : (c :: t).length + (f + 1) = ((t.length + f) + 1) + 1 := by
      simp only [List.length_cons]; omega
    rw [hlen]
    rw [tkRun_more (tkScan_bracket_plain (t.length + f) st c hc (t ++ rest) cons buf sym res stk)]
    have hlen2 : t.length + f + 1 = t.length + (f + 1) := by omega
    rw [hlen2]
    rw [ih f st rest (c :: cons) (buf ++ [c]) sym res stk]
    have e1 : t.reverse ++ (c :: cons) = (c :: t).reverse ++ cons := by simp
    have e2 : (buf ++ [c]) ++ t = buf ++ (c :: t) := by simp
    rw [e1, e2]
  | brk u t hbu hbt ihu iht =>
    intro f st rest cons buf sym res stk
    simp only [List.cons_append, List.append_assoc]
    have hlen : (('[' :: u ++ ']' :: t) : GoStr).length + (f + 1) = (u.length + ((t.length + f + 1) + 1)) + 1 := by
      simp only [List.length_cons, List.length_append]; omega
    simp only [List.length_cons, List.length_append] at hlen ⊢
    rw [show u.length + (t.length + 1) + 1 + (f + 1) = (u.length + ((t.length + f + 1) + 1)) + 1 by omega]
    have hstep1 : tkScan (u.length + ((t.length + f + 1) + 1)) defaultConfig st
        ⟨'[' :: (u ++ (']' :: (t ++ rest))), cons, buf, sym, res, .tsBracket :: stk⟩ =
        (.more, ⟨u ++ (']' :: (t ++ rest)), '[' :: cons, buf ++ ['['], sym, res, .tsBracket :: .tsBracket :: stk⟩, st) := rfl
    rw [tkRun_more hstep1]
    rw [ihu (t.length + f + 1) st (']' :: (t ++ rest)) ('[' :: cons) (buf ++ ['[']) sym res (.tsBracket :: stk)]
    have hstep2 : tkScan (t.length + f + 1) defaultConfig st
        ⟨']' :: (t ++ rest), u.reverse ++ '[' :: cons, (buf ++ ['[']) ++ u, sym, res, .tsBracket :: .tsBracket :: stk⟩ =
        (.more, ⟨t ++ rest, ']' :: (u.reverse ++ '[' :: cons), ((buf ++ ['[']) ++ u) ++ [']'], sym, res, .tsBracket :: stk⟩, st) := rfl
    rw [tkRun_more hstep2]
    have hlen3 : t.length + f + 1 = t.length + (f + 1) := by omega
    rw [hlen3]
    rw [iht f st rest (']' :: (u.reverse ++ '[' :: cons)) (((buf ++ ['[']) ++ u) ++ [']']) sym res stk]
    simp

/-- Running the scanner on `[t]` for balanced `t` (fresh buffer, resolved
flag set) yields a resolved String token whose text is exactly `t`: only
the outermost quote pair is removed. -/
theorem tkRun_bracket_value {t : GoStr} (hb : Balanced t) (f : Nat) (st : Symtab)
    (cons sym : GoStr) :
    tkRun (t.length + (f + 4)) defaultConfig st ⟨'[' :: (t ++ [']']), cons, [], sym, true, []⟩ =
      (.tString ⟨true, t⟩, ⟨[], ']' :: (t.reverse ++ ('[' :: cons)), t, sym, true, []⟩, st) := by
  have h2 : t.length + (f + 4) = (t.length + (f + 3)) + 1 := by omega
  rw [h2]
  have hstep1 : tkScan (t.length + (f + 3)) defaultConfig st
      ⟨'[' :: (t ++ [']']), cons, [], sym, true, []⟩ =
      (.more, ⟨t ++ [']'], '[' :: cons, [], sym, true, [.tsBracket]⟩, st) := rfl
  rw [tkRun_more hstep1]
  have h3 : t.length + (f + 3) = t.length + ((f + 2) + 1) := by omega
  rw [h3]
  rw [tkRun_bracket hb (f + 2) st [']'] ('[' :: cons) [] sym true []]
  have hstep2 : tkScan (f + 2) defaultConfig st
      ⟨[']'], t.reverse ++ ('[' :: cons), [] ++ t, sym, true, [.tsBracket]⟩ =
      (.more, ⟨[], ']' :: (t.reverse ++ ('[' :: cons)), [] ++ t, sym, true, [.tsString]⟩, st) := rfl
  have h4 : (f + 2) + 1 = (f + 1) + 1 + 1 := by omega
  rw [h4, tkRun_more hstep2]
  have hstep3 : tkScan (f + 1) defaultConfig st
      ⟨[], ']' :: (t.reverse ++ ('[' :: cons)), [] ++ t, sym, true, [.tsString]⟩ =
      (.tok (.tString ⟨true, [] ++ t⟩), ⟨[], ']' :: (t.reverse ++ ('[' :: cons)), [] ++ t, sym, true, []⟩, st) := rfl
  rw [tkRun_tok hstep3]
  simp

/-- Tokenizing `[t]` for balanced `t` yields a resolved String token whose
text is exactly `t`. -/
theorem tkNext_bracket_value {t : GoStr} (hb : Balanced t) (f : Nat) (st : Symtab)
    (cons buf sym : GoStr) (res : Bool) :
    tkNext (t.length + (f + 5)) defaultConfig st ⟨'[' :: (t ++ [']']), cons, buf, sym, res, []⟩ =
      (.tString ⟨true, t⟩, ⟨[], ']' :: (t.reverse ++ ('[' :: cons)), t, sym, true, []⟩, st) := by
  have hlen : t.length + (f + 5) = (t.length + (f + 4)) + 1 := by omega
  rw [hlen, tkNext.eq_def]
  dsimp only
  exact tkRun_bracket_value hb f st cons sym

/-- A blank, then `[t]`: the scanner skips the blank in the initial state
and scans the quoted group. -/
theorem tkNext_spaced_value {t : GoStr} (hb : Balanced t) (f : Nat) (st : Symtab)
    (cons buf sym : GoStr) (res : Bool) :
    tkNext (t.length + (f + 7)) defaultConfig st ⟨' ' :: ('[' :: (t ++ [']'])), cons, buf, sym, res, []⟩ =
      (.tString ⟨true, t⟩, ⟨[], ']' :: (t.reverse ++ ('[' :: (' ' :: cons))), t, sym, true, []⟩, st) := by
  rw [show t.length + (f + 7) = (t.length + (f + 6)) + 1 by omega, tkNext.eq_def]
  dsimp only
  have hsp : tkScan (t.length + (f + 5)) defaultConfig st
      ⟨' ' :: ('[' :: (t ++ [']'])), cons, [], sym, true, []⟩ =
      (.more, ⟨'[' :: (t ++ [']']), ' ' :: cons, [], sym, true, []⟩, st) := rfl
  rw [show t.length + (f + 6) = (t.length + (f + 5)) + 1 by omega, tkRun_more hsp]
  rw [show t.length + (f + 5) = t.length + ((f + 1) + 4) by omega]
  exact tkRun_bracket_value hb (f + 1) st (' ' :: cons) sym

/-! Scanner steps for the input `p = [t]` of claim C7. -/

theorem tkNextNameTok (g : Nat) (st : Symtab) (R cons buf sym : GoStr) (res : Bool) :
    tkNext (g + 4) defaultConfig st ⟨'p' :: ' ' :: R, cons, buf, sym, res, []⟩ =
      (.tString ⟨true, ['p']⟩, ⟨R, ' ' :: 'p' :: cons, ['p'], sym, true, []⟩, st) := rfl

theorem tkNextEqualTok (g : Nat) (st : Symtab) (R cons buf sym : GoStr) (res : Bool) :
    tkNext (g + 3) defaultConfig st ⟨'=' :: R, cons, buf, sym, res, []⟩ =
      (.tEqual, ⟨R, '=' :: cons, [], sym, true, []⟩, st) := rfl

theorem tkNextEndTok (g : Nat) (st : Symtab) (cons buf sym : GoStr) (res : Bool) :
    tkNext (g + 3) defaultConfig st ⟨[], cons, buf, sym, res, []⟩ =
      (.tEnd, ⟨[], cons, [], sym, true, []⟩, st) := rfl

theorem operatorOfP : operatorOf defaultConfig ['p'] = none := rfl

theorem verifyP (t : GoStr) :
    verify ⟨[(['p'], 0)], [⟨['p'], 1, 1, false, .str t⟩], ⟨[], []⟩, []⟩ = none := rfl

theorem setValueP (t : GoStr) :
    setValue defaultConfig ⟨[(['p'], 0)], [⟨['p'], 1, 0, false, .str []⟩], ⟨[], []⟩, []⟩
      ⟨true, ['p']⟩ ⟨true, t⟩ =
      (none, ⟨[(['p'], 0)], [⟨['p'], 1, 1, false, .str t⟩], ⟨[], []⟩, []⟩) := rfl

/-- Parsing `p = [t]` with a string scalar parameter p stores exactly `t`
in the target and succeeds, for every balanced text t. -/
theorem parse_quoted_general {t : GoStr} (hb : Balanced t) (f : Nat) :
    parseBytesM (t.length + (f + 20)) defaultConfig emptyWorld
      ⟨[(['p'], 0)], [⟨['p'], 1, 0, false, .str []⟩], ⟨[], []⟩, []⟩
      ('p' :: ' ' :: '=' :: ' ' :: '[' :: (t ++ [']'])) =
    (none, ⟨[(['p'], 0)], [⟨['p'], 1, 1, false, .str t⟩], ⟨[], []⟩, []⟩) := by
  rw [show t.length + (f + 20) = (t.length + (f + 19)) + 1 by omega, parseBytesM.eq_def]
  dsimp only
  rw [show t.length + (f + 19) = (t.length + (f + 18)) + 1 by omega, parseLoop.eq_def]
  dsimp only [newNVP]
  simp only [nvpNext, tkReset]
  rw [show t.length + (f + 18) = (t.length + (f + 14)) + 4 by omega]
  rw [tkNextNameTok (t.length + (f + 14)) ⟨[], []⟩ ('=' :: ' ' :: '[' :: (t ++ [']'])) [] [] [] true]
  dsimp only [nvpAfterName]
  rw [show (t.length + (f + 14)) + 4 = (t.length + (f + 15)) + 3 by omega]
  rw [tkNextEqualTok (t.length + (f + 15)) ⟨[], []⟩ (' ' :: '[' :: (t ++ [']'])) (' ' :: 'p' :: []) ['p'] [] true]
  dsimp only
  rw [show (t.length + (f + 15)) + 3 = t.length + ((f + 11) + 7) by omega]
  rw [tkNext_spaced_value hb (f + 11) ⟨[], []⟩ ('=' :: ' ' :: 'p' :: []) [] [] true]
  dsimp only
  rw [operatorOfP]
  dsimp only
  rw [setValueP t]
  dsimp only
  rw [show t.length + ((f + 11) + 7) = (t.length + (f + 17)) + 1 by omega, parseLoop.eq_def]
  dsimp only
  simp only [nvpNext]
  rw [show t.length + (f + 17) = (t.length + (f + 14)) + 3 by omega]
  rw [tkNextEndTok]
  dsimp only
  rw [verifyP t]

/-! Parser states used by the claims (built as `Def`/`Aka` would build them). -/

/-- A single non-verbatim string scalar parameter "foo" (`Def("foo", &foo)`). -/
def fooState : PState :=
  ⟨[("foo".data, 0)], [⟨"foo".data, 1, 0, false, .str []⟩], ⟨[], []⟩, []⟩

/-- Two non-verbatim string scalars "foo" and "bar". -/
def fooBarState : PState :=
  ⟨[("foo".data, 0), ("bar".data, 1)],
   [⟨"foo".data, 1, 0, false, .str []⟩, ⟨"bar".data, 1, 0, false, .str []⟩],
   ⟨[], []⟩, []⟩

/-- A bool scalar "verbose" with synonym "v"
(`Def("verbose", &verbose).Aka("v")`): both names map to the same record. -/
def verboseState : PState :=
  ⟨[("verbose".data, 0), ("v".data, 0)],
   [⟨"verbose".data, 1, 0, false, .boolean false⟩],
   ⟨[], []⟩, []⟩

/-! Claim theorems. -/

/-- C1.  The claim is false on the code and the code contradicts its own
documented substitution semantics: `symtab.get` stores back only the
`resolved` flag, not the resolved text, so after a first `get(S)` returns
the fully resolved text, every later `get(S)` takes the "already resolved"
fast path and returns the original, still-unresolved text flagged as
resolved.  With `a = "b"` and `c = "$[a]"`, the first get of `c` returns
"b" but the second returns "$[a]"; in a full parse the second reference to
`$[c]` silently assigns the literal text "$[a]" to a non-verbatim
parameter. -/
theorem c1_get_second_call_returns_stale_text :
    (let st1 := (symPut defaultConfig ⟨[], []⟩ "$a".data "b".data).2
     let st2 := (symPut defaultConfig st1 "$c".data "$[a]".data).2
     let r1 := symGet 100 defaultConfig st2 "c".data
     let r2 := symGet 100 defaultConfig r1.2 "c".data
     r1.1 = .ok (some ⟨true, "b".data⟩) ∧
     r2.1 = .ok (some ⟨true, "$[a]".data⟩) ∧
     "$[a]".data ≠ "b".data) ∧
    (let r := parseBytesM 400 defaultConfig emptyWorld fooBarState
        "$c=$[a] $a=b foo=$[c] bar=$[c]".data
     r.1 = none ∧ (r.2.pdata.map fun p => p.target) = [.str "b".data, .str "$[a]".data]) := by
  constructor
  · exact ⟨rfl, rfl, by decide⟩
  · exact ⟨by decide, by decide⟩

/-- The counter of an array-target parameter never exceeds the limit. -/
theorem parseArrayValues_count (p : ParamRec) (values : List GoStr) (h : p.count ≤ p.limit) :
    (parseArrayValues p values).2.count ≤ p.limit := by
  obtain ⟨name, limit, count, verb, tgt⟩ := p
  dsimp only at h ⊢
  simp only [parseArrayValues]
  by_cases hlt : limit < values.length + count
  · rw [if_pos hlt]
    exact h
  · rw [if_neg hlt]
    cases tgt <;> dsimp only <;> omega

/-- The counter of a bounded-slice parameter never exceeds the limit. -/
theorem parseSliceValues_count (p : ParamRec) (values : List GoStr) (h : p.count ≤ p.limit)
    (hpos : 0 < p.limit) : (parseSliceValues p values).2.count ≤ p.limit := by
  obtain ⟨name, limit, count, verb, tgt⟩ := p
  dsimp only at h hpos ⊢
  simp only [parseSliceValues]
  rw [if_neg (by omega : ¬(limit = 0))]
  by_cases hlt : limit < values.length + count
  · rw [if_pos hlt]
    exact h
  · rw [if_neg hlt]
    cases tgt <;> dsimp only <;> omega

/-- parseValues routes array targets to parseArrayValues, keeping the
mutated record. -/
theorem parseValues_snd_array (p : ParamRec) (values : List GoStr) (n : Nat) (v : List GoStr)
    (htgt : p.target = .strArray n v) :
    (parseValues p values).2 = (parseArrayValues p values).2 := by
  simp only [parseValues, htgt]
  rcases hr : parseArrayValues p values with ⟨err, p2⟩
  cases err <;> rfl

/-- parseValues routes slice targets to parseSliceValues, keeping the
mutated record. -/
theorem parseValues_snd_slice (p : ParamRec) (values : List GoStr) (capv : Nat) (v : List GoStr)
    (htgt : p.target = .strSlice capv v) :
    (parseValues p values).2 = (parseSliceValues p values).2 := by
  simp only [parseValues, htgt]
  rcases hr : parseSliceValues p values with ⟨err, p2⟩
  cases err <;> rfl

/-- C2, counterexample.  A scalar parameter (limit 1) assigned in two
name-value pairs ends a successful parse with its counter at 2: the scalar
branch of `Param.parseValues` increments the counter with no limit check
("the last wins"), and `Parser.verify` checks scalars only for being set. -/
theorem c2_counterexample_scalar_count_exceeds_limit :
    (parseBytesM 300 defaultConfig emptyWorld fooState "foo=a foo=b".data).1 = none ∧
    (parseBytesM 300 defaultConfig emptyWorld fooState "foo=a foo=b".data).2.pdata =
      [⟨"foo".data, 1, 2, false, .str "b".data⟩] ∧
    ¬((2 : Nat) ≤ 1) := by
  exact ⟨by decide, by decide, by decide⟩

/-- C2, amended.  The bound c ≤ limit holds for array targets and for
bounded-slice targets (limit > 0): every assignment preserves it, because
`parseArrayValues` and `parseSliceValues` reject a batch that would push
the total beyond the limit.  For scalar (and map) targets the counter
counts assignments and may exceed the limit: multiple assignments are
accepted, the last value winning. -/
theorem c2_amended_sequence_counters_bounded (p : ParamRec) (values : List GoStr)
    (h : p.count ≤ p.limit) :
    (∀ n v, p.target = .strArray n v → (parseValues p values).2.count ≤ p.limit) ∧
    (∀ capv v, p.target = .strSlice capv v → 0 < p.limit →
      (parseValues p values).2.count ≤ p.limit) := by
  constructor
  · intro n v htgt
    rw [parseValues_snd_array p values n v htgt]
    exact parseArrayValues_count p values h
  · intro capv v htgt hpos
    rw [parseValues_snd_slice p values capv v htgt]
    exact parseSliceValues_count p values h hpos

/-- Witness for C2 (amended): a 3-element array parameter that has already
seen 0 values, fed 4 values at once, still ends with counter ≤ 3 (the
batch is rejected). -/
theorem c2_amended_sequence_counters_bounded_witness :
    (0 : Nat) ≤ 3 ∧
    (parseValues ⟨"bar".data, 3, 0, false, .strArray 3 [[], [], []]⟩
        ["1".data, "2".data, "3".data, "4".data]).2.count ≤ 3 :=
  ⟨by decide,
   (c2_amended_sequence_counters_bounded ⟨"bar".data, 3, 0, false, .strArray 3 [[], [], []]⟩
      ["1".data, "2".data, "3".data, "4".data] (by decide)).1 3 [[], [], []] rfl⟩

/-- C3.  Parsing `$a=$[b] $b=$[a] foo=$[b]` with a string scalar `foo`
returns exactly `Parse error on foo: cyclical symbol definition detected:
"b"`; and `symtab.get` refuses to resolve any symbol that is already on the
resolution stack, so a name never appears twice on it. -/
theorem c3_cyclical_symbol_error :
    (parseBytesM 400 defaultConfig emptyWorld fooState "$a=$[b] $b=$[a] foo=$[b]".data).1 =
      some (.msg "Parse error on foo: cyclical symbol definition detected: \"b\"".data) ∧
    (∀ (fuel : Nat) (cfg : Config) (st : Symtab) (s : GoStr),
      s ∈ st.cycle → symGet (fuel + 1) cfg st s = (.error (.cycle s), st)) := by
  constructor
  · decide
  · intro fuel cfg st s hmem
    obtain ⟨table, cycle⟩ := st
    simp only [symGet]
    rw [if_pos hmem]

/-- Witness for C3: the cycle guard fires on a concrete table whose
resolution stack already holds "b". -/
theorem c3_cyclical_symbol_error_witness :
    "b".data ∈ (⟨[], ["b".data]⟩ : Symtab).cycle ∧
    symGet 1 defaultConfig ⟨[], ["b".data]⟩ "b".data =
      (.error (.cycle "b".data), ⟨[], ["b".data]⟩) :=
  ⟨by decide, c3_cyclical_symbol_error.2 0 defaultConfig ⟨[], ["b".data]⟩ "b".data (by decide)⟩

/-- C4, counterexample.  `resetOperator.handle` calls `local.Parse(value)`
without checking its error: the sub-parse of "=x" fails with "= unexpected"
yet the handler returns nil and the enclosing parse would continue. -/
theorem c4_counterexample_reset_discards_subparser_error :
    parseBytesM 99 defaultConfig emptyWorld namesLocal "=x".data =
      (some (.msg "at \"=\": \"=\" unexpected".data), namesLocal) ∧
    handleReset 100 defaultConfig emptyWorld emptyPState "=x".data = (none, emptyPState) := by
  exact ⟨by decide, by decide⟩

/-- C4, amended.  Only `cond` checks the error of its ephemeral
sub-parser's parse and propagates it verbatim; `dump`, `import`,
`include`, `macro` and `reset` invoke `local.Parse(value)` and discard its
result, so a failing sub-parse does not abort the enclosing parse (skip
runs no sub-parser at all).  The concrete conjuncts run every discarding
operator on the ill-formed value "=x", whose sub-parse fails. -/
theorem c4_amended_only_cond_propagates :
    (∀ (fuel : Nat) (cfg : Config) (w : World) (a : PState) (value : GoStr) (e : GoErr) (st2 : PState),
      parseBytesM fuel cfg w condLocal value = (some e, st2) →
      handleCond (fuel + 1) cfg w a value = (some e, a)) ∧
    (∀ (fuel : Nat) (cfg : Config) (w : World) (a : PState) (value : GoStr),
      handleDump (fuel + 1) cfg w a value = (none, a)) ∧
    handleImport 100 defaultConfig emptyWorld emptyPState "=x".data = (none, emptyPState) ∧
    handleMacro 100 defaultConfig emptyWorld emptyPState "=x".data = (none, emptyPState) ∧
    handleReset 100 defaultConfig emptyWorld emptyPState "=x".data = (none, emptyPState) ∧
    handleInclude 100 defaultConfig emptyWorld emptyPState "=x".data =
      (some (.msg "include: open : no such file or directory".data), emptyPState) ∧
    GoErr.msg "include: open : no such file or directory".data ≠
      .msg "at \"=\": \"=\" unexpected".data := by
  refine ⟨?_, ?_, by decide, by decide, by decide, by decide, by decide⟩
  · intro fuel cfg w a value e st2 hsub
    cases fuel with
    | zero =>
      simp only [parseBytesM, Prod.mk.injEq, Option.some.injEq] at hsub
      obtain ⟨he, -⟩ := hsub
      subst he
      rfl
    | succ g =>
      rw [handleCond.eq_def]
      dsimp only
      rw [hsub]
  · intro fuel cfg w a value
    rfl

/-- Witness for C4 (amended): cond propagates the concrete sub-parse error
of "=x". -/
theorem c4_amended_only_cond_propagates_witness :
    parseBytesM 99 defaultConfig emptyWorld condLocal "=x".data =
      (some (.msg "at \"=\": \"=\" unexpected".data), condLocal) ∧
    handleCond 100 defaultConfig emptyWorld emptyPState "=x".data =
      (some (.msg "at \"=\": \"=\" unexpected".data), emptyPState) :=
  ⟨by decide,
   c4_amended_only_cond_propagates.1 99 defaultConfig emptyWorld emptyPState "=x".data
     (.msg "at \"=\": \"=\" unexpected".data) condLocal (by decide)⟩

/-- C5.  The byte-order-mark check of `includeOperator.handle` reads
`data[0] == 0xef && data[1] == 0xbb || data[2] == 0xbf`; because `&&` binds
tighter than `||`, a file whose third byte is 0xBF has its first three
bytes stripped even though it does not start with EF BB BF — contradicting
the source's own comment "remove byte order mark if any" and spec rule B5.
Failing input: the bytes 61 62 BF 63. -/
theorem c5_bom_strip_without_bom :
    includeStrip [0x61, 0x62, 0xbf, 0x63] = some [0x63] ∧
    [0x61, 0x62, 0xbf, 0x63].take 3 ≠ [0xef, 0xbb, 0xbf] ∧
    some [0x63] ≠ some [0x61, 0x62, 0xbf, 0x63] := by
  exact ⟨by decide, by decide, by decide⟩

/-- C6, counterexample.  "v" is only a synonym of the bool parameter
"verbose" (the canonical names in the table are just "verbose"), there is
no anonymous parameter, yet the standalone value "v" IS rewritten to
(v, "true") and the parse succeeds setting the target — because
`isStandaloneBoolParameter` consults the params map, which contains
synonyms.  The claim predicts the rewrite not to happen (which would have
made the parse fail with "unexpected standalone value"). -/
theorem c6_counterexample_synonym_rewritten :
    (verboseState.pdata.map fun p => p.name) = ["verbose".data] ∧
    lookupA [] verboseState.params = none ∧
    isStandaloneBoolParameter verboseState ⟨true, "v".data⟩ = true ∧
    parseBytesM 300 defaultConfig emptyWorld verboseState "v".data =
      (none, ⟨[("verbose".data, 0), ("v".data, 0)],
              [⟨"verbose".data, 1, 1, false, .boolean true⟩], ⟨[], []⟩, []⟩) := by
  exact ⟨by decide, by decide, by decide, by decide⟩

/-- C6, amended.  A standalone value is rewritten to (name, "true") iff its
symval is resolved and its text is any defined name — canonical or synonym
— of a parameter whose target accepts bool.  Unresolved symvals are never
rewritten; both "verbose" and its synonym "v" are rewritten and set the
bool target; a standalone value naming a non-bool parameter is not
rewritten and, with no anonymous parameter defined, fails the parse. -/
theorem c6_amended_any_defined_bool_name_rewrites :
    (∀ (a : PState) (s : GoStr), isStandaloneBoolParameter a ⟨false, s⟩ = false) ∧
    parseBytesM 300 defaultConfig emptyWorld verboseState "v".data =
      (none, ⟨[("verbose".data, 0), ("v".data, 0)],
              [⟨"verbose".data, 1, 1, false, .boolean true⟩], ⟨[], []⟩, []⟩) ∧
    parseBytesM 300 defaultConfig emptyWorld verboseState "verbose".data =
      (none, ⟨[("verbose".data, 0), ("v".data, 0)],
              [⟨"verbose".data, 1, 1, false, .boolean true⟩], ⟨[], []⟩, []⟩) ∧
    (parseBytesM 300 defaultConfig emptyWorld fooState "foo".data).1 =
      some (.msg "unexpected standalone value: \"foo\"".data) := by
  refine ⟨?_, by decide, by decide, by decide⟩
  intro a s
  simp [isStandaloneBoolParameter]

/-- C7.  Round trip of quoted groups: for every balanced text t of
otherwise plain characters, the tokenizer turns the value `[t]` into a
resolved String token whose text is exactly t (only the outermost pair is
removed), and a full parse of `p = [t]` with a string scalar p succeeds and
stores exactly t in the target. -/
theorem c7_quoted_group_round_trip {t : GoStr} (hb : Balanced t) (f : Nat) :
    (tkNext (t.length + (f + 5)) defaultConfig ⟨[], []⟩
        (tkReset ('[' :: (t ++ [']'])))).1 = .tString ⟨true, t⟩ ∧
    parseBytesM (t.length + (f + 20)) defaultConfig emptyWorld
      ⟨[(['p'], 0)], [⟨['p'], 1, 0, false, .str []⟩], ⟨[], []⟩, []⟩
      ('p' :: ' ' :: '=' :: ' ' :: '[' :: (t ++ [']'])) =
    (none, ⟨[(['p'], 0)], [⟨['p'], 1, 1, false, .str t⟩], ⟨[], []⟩, []⟩) := by
  constructor
  · rw [show tkReset ('[' :: (t ++ [']'])) =
        (⟨'[' :: (t ++ [']']), [], [], [], true, []⟩ : Tokenizer) from rfl]
    rw [tkNext_bracket_value hb f ⟨[], []⟩ [] [] [] true]
  · exact parse_quoted_general hb f

/-- Witness for C7 at t = "[x]": the nested value `[[x]]` is stored as
`[x]` (all but the outermost pair preserved). -/
theorem c7_quoted_group_round_trip_witness :
    parseBytesM 23 defaultConfig emptyWorld
      ⟨[(['p'], 0)], [⟨['p'], 1, 0, false, .str []⟩], ⟨[], []⟩, []⟩
      "p = [[x]]".data =
    (none, ⟨[(['p'], 0)], [⟨['p'], 1, 1, false, .str "[x]".data⟩], ⟨[], []⟩, []⟩) :=
  (c7_quoted_group_round_trip
      (Balanced.brk ['x'] []
        (Balanced.ch 'x' [] (by decide) Balanced.nil) Balanced.nil) 0).2

/-- C8, counterexample.  `symtab.put` inserts "$a!" under the key "a!"
although '!' is not a valid name character: the remainder after the prefix
is not validated. -/
theorem c8_counterexample_put_accepts_invalid_name :
    symPut defaultConfig ⟨[], []⟩ "$a!".data "v".data =
      (true, ⟨[("a!".data, ⟨false, "v".data⟩)], []⟩) ∧
    valid '!' = false := by
  exact ⟨by decide, by decide⟩

/-- C8, amended.  `put` reports a symbol definition iff the string has at
least two runes, starts with the symbol prefix, and its second rune is not
the prefix; no validity check is made on the remaining characters.  The
table either stays unchanged (no match, or key already present — first
wins) or gains exactly the entry for the unvalidated remainder, unresolved,
with the given value. -/
theorem c8_amended_put_checks_only_prefix_shape (cfg : Config) (st : Symtab) (s v : GoStr) :
    ((symPut cfg st s v).1 = true ↔
      ∃ c0 c1 r, s = c0 :: c1 :: r ∧ c0 = cfg.symbolPrefix ∧ c1 ≠ cfg.symbolPrefix) ∧
    ((symPut cfg st s v).2.table = st.table ∨
      (symPut cfg st s v).2.table = st.table ++ [(s.drop 1, ⟨false, v⟩)]) := by
  obtain ⟨table, cycle⟩ := st
  match s with
  | [] => exact ⟨by simp [symPut], Or.inl rfl⟩
  | [c] =>
    refine ⟨?_, Or.inl rfl⟩
    simp only [symPut]
    constructor
    · intro h; exact absurd h (by decide)
    · rintro ⟨c0, c1, r, hcons, _, _⟩
      exact absurd hcons (by simp)
  | c0 :: c1 :: r =>
    by_cases hc : c0 = cfg.symbolPrefix ∧ c1 ≠ cfg.symbolPrefix
    · constructor
      · simp only [symPut, if_pos hc]
        constructor
        · intro _
          exact ⟨c0, c1, r, rfl, hc.1, hc.2⟩
        · intro _
          rcases hlk : lookupA (c1 :: r) table with _ | w <;> simp [hlk]
      · simp only [symPut, if_pos hc]
        rcases hlk : lookupA (c1 :: r) table with _ | w
        · right
          simp [hlk]
        · left
          simp [hlk]
    · constructor
      · simp only [symPut, if_neg hc]
        constructor
        · intro h; exact absurd h (by decide)
        · rintro ⟨d0, d1, r2, hcons, h1, h2⟩
          injection hcons with e0 rest0
          injection rest0 with e1 _
          exact absurd ⟨e0 ▸ h1, e1 ▸ h2⟩ hc
      · simp only [symPut, if_neg hc]
        exact Or.inl trivial

/-- On a file of three bytes or more the byte-order-mark check always
completes without running out of range. -/
theorem includeStrip_long (b0 b1 b2 : Nat) (r : List Nat) :
    (includeStrip (b0 :: b1 :: b2 :: r)).isSome = true := by
  have hlen : ¬((b0 :: b1 :: b2 :: r).length < 3) := by
    simp only [List.length_cons]
    omega
  by_cases h0 : b0 = 0xef
  · by_cases h1 : b1 = 0xbb
    · simp [includeStrip, h0, h1, hlen]
    · by_cases h2 : b2 = 0xbf
      · simp [includeStrip, h0, h1, h2, hlen]
      · simp [includeStrip, h0, h1, h2, hlen]
  · by_cases h2 : b2 = 0xbf
    · simp [includeStrip, h0, h2, hlen]
    · simp [includeStrip, h0, h2, hlen]

/-- C9.  The BOM check of `includeOperator.handle` indexes `data[0]`,
`data[1]`, `data[2]` and slices `data[3:]` with no length guard: on an
empty file (and on any content shorter than three bytes reaching the
relevant branch) it performs an out-of-range access (a Go panic), although
the repository's own test `TestOperatorIncludeEmptyFile` expects an empty
include file to parse successfully.  On contents of length at least 3 the
check never goes out of range. -/
theorem c9_bom_check_out_of_range_on_short_files :
    includeStrip [] = none ∧
    includeStrip [0x41] = none ∧
    includeStrip [0xef, 0xbb] = none ∧
    (∀ data : List Nat, 3 ≤ data.length → (includeStrip data).isSome = true) := by
  refine ⟨by decide, by decide, by decide, ?_⟩
  intro data hlen
  match data, hlen with
  | b0 :: b1 :: b2 :: r, _ => exact includeStrip_long b0 b1 b2 r

/-- Witness for C9: a three-byte file passes the check without any
out-of-range access. -/
theorem c9_bom_check_out_of_range_on_short_files_witness :
    (3 : Nat) ≤ ([0x41, 0x42, 0x43] : List Nat).length ∧
    (includeStrip [0x41, 0x42, 0x43]).isSome = true :=
  ⟨by decide, c9_bom_check_out_of_range_on_short_files.2.2.2 [0x41, 0x42, 0x43] (by decide)⟩

/-- C10.  `symtab.get` leaves the cycle-detection set exactly as it was on
every return path (absent symbol, cached hit, successful resolution, cycle
error, nested error): the set after any call equals the set before, for
every fuel, configuration, table state and symbol; in particular it stays
empty across top-level calls. -/
theorem c10_get_preserves_cycle_set :
    ∀ (fuel : Nat) (cfg : Config) (st : Symtab) (sym : GoStr),
      ((symGet fuel cfg st sym).2).cycle = st.cycle :=
  fun fuel => (cycleAll fuel).1

end Args
